import Mathlib

/-!
Verification of protoc-gen-service-registry (Go, `src/main.go` and
`src/unnamed/part_000`) against its natural-language specification.

Go strings are embedded as lists of characters (`Str`).  The Go code only
ever inspects bytes in the ASCII range ('A'..'Z', ',', '=', '/', '.'); a
byte in that range is always a complete one-byte UTF-8 rune, so a
character-level embedding agrees with Go's byte-level operations on every
input.  Library calls (`strings.Split`, `strings.SplitN`,
`strings.TrimSpace`, `strings.TrimPrefix`, `strings.TrimSuffix`,
`strings.ToLower`, `filepath.Join`) are re-implemented below following
their documented Go semantics.
-/

abbrev Str := List Char

/-- Character test of Go `unicode.IsSpace`: the Latin-1 fast path
('\t', '\n', '\v', '\f', '\r', ' ', U+0085, U+00A0) plus the Unicode
White_Space code points outside Latin-1. -/
def isSpaceGo (c : Char) : Bool :=
  c = '\t' || c = '\n' || c = Char.ofNat 11 || c = Char.ofNat 12 ||
  c = '\r' || c = ' ' || c = Char.ofNat 0x85 || c = Char.ofNat 0xA0 ||
  c = Char.ofNat 0x1680 || (0x2000 ≤ c.toNat && c.toNat ≤ 0x200A) ||
  c = Char.ofNat 0x2028 || c = Char.ofNat 0x2029 || c = Char.ofNat 0x202F ||
  c = Char.ofNat 0x205F || c = Char.ofNat 0x3000

/-- Go `strings.TrimSpace`: drop leading and trailing white space. -/
def trimSpaceGo (s : Str) : Str :=
  ((s.dropWhile isSpaceGo).reverse.dropWhile isSpaceGo).reverse

/-- Go `strings.Split(s, ",")`: split on every comma; the empty string
yields one empty field, n commas yield n+1 fields. -/
def splitComma : Str → List Str
  | [] => [[]]
  | c :: rest =>
    if c = ',' then [] :: splitComma rest
    else
      match splitComma rest with
      | [] => [[c]]
      | p :: ps => (c :: p) :: ps

/-- Go `strings.SplitN(pair, "=", 2)`: `some (before, after)` split at the
first '=' (the `after` part may itself contain '='), `none` when the pair
has no '=' (Go then returns a one-element slice and the caller skips it). -/
def splitFirstEq : Str → Option (Str × Str)
  | [] => none
  | c :: rest =>
    if c = '=' then some ([], rest)
    else (splitFirstEq rest).map (fun p => (c :: p.1, p.2))

/-- Go `strings.TrimSuffix(s, suffix)`. -/
def trimSuffixGo (s suffix : Str) : Str :=
  if suffix.isSuffixOf s then s.take (s.length - suffix.length) else s

/-- Go `strings.TrimPrefix(s, pre)`. -/
def trimPrefixGo (s pre : Str) : Str :=
  if pre.isPrefixOf s then s.drop pre.length else s

/-- Configuration record `PluginConfig` of `main.go` lines 16-20. -/
structure PluginConfig where
  TemplateFile : Str
  OutputDir : Str
  PackageName : Str
deriving Repr, DecidableEq

/-- Defaults installed by `parsePluginOptions` before reading the
parameter (`main.go` lines 60-64). -/
def defaultConfig : PluginConfig :=
  { TemplateFile := []
    OutputDir := "local_service_center".toList
    PackageName := "local_service_center".toList }

/-- Body of the `switch` in `parsePluginOptions` (`main.go` lines 73-87):
split one candidate entry at the first '=', trim key and value, and update
the matching recognized field; entries without '=' and unrecognized keys
leave the configuration unchanged. -/
def applyPair (config : PluginConfig) (pair : Str) : PluginConfig :=
  match splitFirstEq pair with
  | none => config
  | some kv =>
    let key := trimSpaceGo kv.1
    let value := trimSpaceGo kv.2
    if key = "template_file".toList then { config with TemplateFile := value }
    else if key = "output_dir".toList then { config with OutputDir := value }
    else if key = "package_name".toList then { config with PackageName := value }
    else config

/-- The parser `parsePluginOptions` of `main.go` lines 59-96 (identical in
`part_000` lines 60-97): reject the empty parameter, fold the comma-split
entries over the defaults, then reject an empty `TemplateFile`. -/
def parsePluginOptions (param : Str) : Except Str PluginConfig :=
  if param = [] then
    Except.error "必须指定插件参数，至少需要 template_file".toList
  else
    let config := (splitComma param).foldl applyPair defaultConfig
    if config.TemplateFile = [] then
      Except.error "必须指定 template_file 参数".toList
    else
      Except.ok config

deriving instance DecidableEq for Except

/-- Service-name derivation shared by both implementations (`main.go`
line 122, `part_000` line 123): `strings.TrimSuffix(name, "Service")`. -/
def serviceNameOf (name : Str) : Str :=
  trimSuffixGo name "Service".toList

/-- Proto-package-name derivation of `main.go` lines 116-119 (Variant B of
the spec): try `strings.TrimPrefix(pkg, "proto_")`; when that returned the
input unchanged, use `strings.TrimPrefix(pkg, "proto.")` instead. -/
def protoPackageNameOf (pkg : Str) : Str :=
  let p := trimPrefixGo pkg "proto_".toList
  if p = pkg then trimPrefixGo pkg "proto.".toList else p

/-- Case conversion `toCamelCase` of `part_000` lines 172-186: when the
first byte is an ASCII upper-case letter (Go compares the byte `s[0]`
against 'A' and 'Z', i.e. 65 and 90), replace it by the byte 32 higher and
keep the rest; otherwise return the string unchanged.  A first byte in
65..90 is always a complete one-character rune, so the character-level
version is exact. -/
def toCamelCase (s : Str) : Str :=
  match s with
  | [] => s
  | first :: rest =>
    if 65 ≤ first.toNat ∧ first.toNat ≤ 90 then
      Char.ofNat (first.toNat + 32) :: rest
    else s

/-- Per-byte lower-casing of Go `strings.ToLower` on its ASCII fast path:
bytes 'A'..'Z' (65..90) get 32 added, all other bytes are kept.  Go also
applies Unicode case mapping to non-ASCII runes; protobuf service names
are ASCII identifiers, so the embedding is exact on every name the plugin
can receive, and the theorems about it carry an all-ASCII hypothesis. -/
def lowerByteGo (c : Char) : Char :=
  if 65 ≤ c.toNat ∧ c.toNat ≤ 90 then Char.ofNat (c.toNat + 32) else c

/-- Go `strings.ToLower` (see `lowerByteGo` for the ASCII scope). -/
def toLowerGo (s : Str) : Str :=
  s.map lowerByteGo

/-- One step of the component scan of Go `filepath.Clean` (unix): the
accumulator holds the cleaned components in reverse; "" and "." are
skipped, ".." pops a popable component, other components are pushed. -/
def cleanStep (rooted : Bool) (stack : List Str) (elem : Str) : List Str :=
  if elem = [] ∨ elem = ".".toList then stack
  else if elem = "..".toList then
    match stack with
    | [] => if rooted then [] else [elem]
    | top :: rest => if top = "..".toList then elem :: stack else rest
  else elem :: stack

/-- Go `path/filepath.Clean` on unix: lexical cleaning by scanning the
'/'-separated components with `cleanStep`. -/
def filepathClean (path : Str) : Str :=
  if path = [] then ".".toList
  else
    let rooted := path.head? = some '/'
    let comps := ((path.splitOn '/').foldl (cleanStep rooted) []).reverse
    let joined := List.intercalate "/".toList comps
    if rooted then '/' :: joined
    else if joined = [] then ".".toList
    else joined

/-- Go `filepath.Join(a, b)`: drop empty elements, join the rest with '/',
then `Clean`; all elements empty gives the empty string. -/
def filepathJoin (a b : Str) : Str :=
  if a = [] ∧ b = [] then []
  else if a = [] then filepathClean b
  else if b = [] then filepathClean a
  else filepathClean (a ++ '/' :: b)

/-- Output path computed by `generateServiceRegistry` of `main.go` lines
156-157: `filepath.Join(config.OutputDir, strings.ToLower(serviceName) + ".go")`. -/
def outputPathMain (config : PluginConfig) (serviceName : Str) : Str :=
  filepathJoin config.OutputDir (toLowerGo serviceName ++ ".go".toList)

/-- Output path computed by `generateServiceRegistry` of `part_000` lines
158-159: `filepath.Join(config.OutputDir, toCamelCase(serviceName) + ".go")`. -/
def outputPathPart000 (config : PluginConfig) (serviceName : Str) : Str :=
  filepathJoin config.OutputDir (toCamelCase serviceName ++ ".go".toList)

/-- Modelled from the spec (4.5): case policy (a), "first character
lower-cased, remaining characters unchanged". -/
def specLowerFirst : Str → Str
  | [] => []
  | c :: rest => Char.toLower c :: rest

/-- Modelled from the spec (4.5): case policy (b), "the whole name
lower-cased". -/
def specLowerAll (s : Str) : Str :=
  s.map Char.toLower

/-- Modelled from the spec (6): generated file naming
`<outputDir>/<caseConvertedServiceName>.<ext>` with path-join semantics
and extension `.go`. -/
def specEmitPath (policy : Str → Str) (config : PluginConfig) (serviceName : Str) : Str :=
  filepathJoin config.OutputDir (policy serviceName ++ ".go".toList)

/-- Service metadata as `main.go` consumes it: `service.Desc.Name()`. -/
structure ServiceMeta where
  name : Str
deriving Repr, DecidableEq

/-- File metadata as `main.go` consumes it: `f.GoPackageName`,
`f.GoImportPath`, the generation-eligibility flag `f.Generate` and the
declared services `f.Services` in descriptor order. -/
structure FileMeta where
  GoPackageName : Str
  GoImportPath : Str
  Generate : Bool
  Services : List ServiceMeta
deriving Repr, DecidableEq

/-- Inner loop of `main` over `f.Services` (`main.go` lines 47-52).  The
per-service body `generateServiceRegistry` performs template I/O, template
execution and formatting through external libraries, so it is abstracted
as a `step` function returning either an error or the registered generated
file.  Alongside the `Except` result (exactly what `main` propagates) the
embedding records the trace of (file, service) pairs whose step was
actually invoked, so that "no further service is processed" is statable. -/
def runServices {E G : Type} (step : FileMeta → ServiceMeta → Except E G)
    (f : FileMeta) : List ServiceMeta → List (FileMeta × ServiceMeta) × Except E (List G)
  | [] => ([], Except.ok [])
  | s :: rest =>
    match step f s with
    | Except.error e => ([(f, s)], Except.error e)
    | Except.ok g =>
      match runServices step f rest with
      | (tr, Except.error e) => ((f, s) :: tr, Except.error e)
      | (tr, Except.ok gs) => ((f, s) :: tr, Except.ok (g :: gs))

/-- Outer loop of `main` over `gen.Files` (`main.go` lines 41-54): files
with `Generate = false` are skipped entirely; on the first failing service
the error is returned immediately; otherwise the registered generated
files of all services are collected in order. -/
def runPlugin {E G : Type} (step : FileMeta → ServiceMeta → Except E G) :
    List FileMeta → List (FileMeta × ServiceMeta) × Except E (List G)
  | [] => ([], Except.ok [])
  | f :: rest =>
    if f.Generate then
      match runServices step f f.Services with
      | (tr, Except.error e) => (tr, Except.error e)
      | (tr, Except.ok gs) =>
        match runPlugin step rest with
        | (tr2, Except.error e) => (tr ++ tr2, Except.error e)
        | (tr2, Except.ok gs2) => (tr ++ tr2, Except.ok (gs ++ gs2))
    else runPlugin step rest

/-- The (file, service) pairs the run is expected to process: services of
generation-eligible files, in order. -/
def eligiblePairs (files : List FileMeta) : List (FileMeta × ServiceMeta) :=
  (files.filter fun f => f.Generate).flatMap fun f => f.Services.map fun s => (f, s)

/-- Reference runner over an explicit pair list, used to characterize
`runPlugin`. -/
def runPairs {E G : Type} (step : FileMeta → ServiceMeta → Except E G) :
    List (FileMeta × ServiceMeta) → List (FileMeta × ServiceMeta) × Except E (List G)
  | [] => ([], Except.ok [])
  | p :: rest =>
    match step p.1 p.2 with
    | Except.error e => ([p], Except.error e)
    | Except.ok g =>
      match runPairs step rest with
      | (tr, Except.error e) => (p :: tr, Except.error e)
      | (tr, Except.ok gs) => (p :: tr, Except.ok (g :: gs))

/-- Filesystem oracle for `loadTemplate`: `statNotExist path` is true when
`os.Stat(path)` returns an error satisfying `os.IsNotExist`, and
`readFile` is the outcome of `os.ReadFile` (error message or content). -/
structure FileSystem where
  statNotExist : Str → Bool
  readFile : Str → Except Str Str

/-- The two error shapes `loadTemplate` produces (`main.go` lines 102 and
108): the not-found message names the missing path, the read-failure
message wraps the underlying I/O error. -/
inductive TemplateError where
  | notFound (path : Str)
  | readFailed (msg : Str)
deriving Repr, DecidableEq

/-- The loader `loadTemplate` of `main.go` lines 99-112: a stat check
first, answering the distinct not-found error; then the read, wrapping any
failure in the distinct read error; on success the content is returned. -/
def loadTemplate (fs : FileSystem) (config : PluginConfig) : Except TemplateError Str :=
  if fs.statNotExist config.TemplateFile then
    Except.error (TemplateError.notFound config.TemplateFile)
  else
    match fs.readFile config.TemplateFile with
    | Except.error m => Except.error (TemplateError.readFailed m)
    | Except.ok content => Except.ok content

/-- Claim-side view of one candidate entry: the trimmed key and trimmed
value of an entry that contains '=', `none` otherwise. -/
def entryOf (pair : Str) : Option (Str × Str) :=
  (splitFirstEq pair).map fun kv => (trimSpaceGo kv.1, trimSpaceGo kv.2)

/-- Claim-side view: the trimmed value a candidate entry contributes for
the given key (`none` when the entry has no '=' or carries another key). -/
def keyHit (key : Str) (pair : Str) : Option Str :=
  match entryOf pair with
  | some kv => if kv.1 = key then some kv.2 else none
  | none => none

/-- Claim-side view of the parameter string: the value of the last entry
carrying the given key, if any. -/
def lastVal (key : Str) (ps : List Str) : Option Str :=
  ps.reverse.findSome? (keyHit key)

/-- Claim-side view of one fold step: the value a recognized field holds
after a candidate entry was applied to it. -/
def fieldUpd (key : Str) (pair : Str) (old : Str) : Str :=
  (keyHit key pair).getD old


/-- Concrete step function used by the orchestrator witnesses: fails on
the service named "B", succeeds elsewhere. -/
def wStep : FileMeta → ServiceMeta → Except Nat Nat :=
  fun _ s => if s.name = "B".toList then Except.error 7 else Except.ok 1

/-- Concrete generation-eligible file with three services. -/
def wFileA : FileMeta :=
  { GoPackageName := "pa".toList
    GoImportPath := "ia".toList
    Generate := true
    Services := [{ name := "A".toList }, { name := "B".toList },
      { name := "C".toList }] }

/-- Concrete file excluded from generation though it declares a service. -/
def wFileSkip : FileMeta :=
  { GoPackageName := "ps".toList
    GoImportPath := "is".toList
    Generate := false
    Services := [{ name := "D".toList }] }

/-- Concrete filesystem oracle on which every path exists and reads the
same template text. -/
def wFS : FileSystem :=
  { statNotExist := fun _ => false
    readFile := fun _ => Except.ok "tmpl".toList }

/-- Concrete filesystem oracle on which no path exists. -/
def wFSmissing : FileSystem :=
  { statNotExist := fun _ => true
    readFile := fun _ => Except.error "x".toList }

/-! Helper lemmas: option parsing. -/

theorem applyPair_TemplateFile (c : PluginConfig) (pair : Str) :
    (applyPair c pair).TemplateFile =
      fieldUpd "template_file".toList pair c.TemplateFile := by
  rcases h : splitFirstEq pair with _ | kv <;>
    simp only [applyPair, fieldUpd, keyHit, entryOf, h, Option.map_some',
      Option.map_none', Option.getD_none] <;>
    split_ifs <;> rfl

theorem applyPair_OutputDir (c : PluginConfig) (pair : Str) :
    (applyPair c pair).OutputDir =
      fieldUpd "output_dir".toList pair c.OutputDir := by
  rcases h : splitFirstEq pair with _ | kv <;>
    simp only [applyPair, fieldUpd, keyHit, entryOf, h, Option.map_some',
      Option.map_none', Option.getD_none] <;>
    split_ifs with h1 h2 <;> first | rfl | simp_all

theorem applyPair_PackageName (c : PluginConfig) (pair : Str) :
    (applyPair c pair).PackageName =
      fieldUpd "package_name".toList pair c.PackageName := by
  rcases h : splitFirstEq pair with _ | kv <;>
    simp only [applyPair, fieldUpd, keyHit, entryOf, h, Option.map_some',
      Option.map_none', Option.getD_none] <;>
    split_ifs with h1 h2 <;> first | rfl | simp_all

theorem foldl_applyPair_proj (key : Str) (proj : PluginConfig → Str)
    (hstep : ∀ c pair, proj (applyPair c pair) = fieldUpd key pair (proj c)) :
    ∀ (ps : List Str) (c : PluginConfig),
      proj (ps.foldl applyPair c) = (lastVal key ps).getD (proj c) := by
  intro ps
  induction ps with
  | nil => intro c; simp [lastVal]
  | cons p ps ih =>
    intro c
    simp only [List.foldl_cons, ih, hstep, lastVal, List.reverse_cons,
      List.findSome?_append]
    cases hfind : (ps.reverse.findSome? (keyHit key)) with
    | some v => simp [Option.or]
    | none =>
      simp only [Option.or, fieldUpd]
      cases hk : keyHit key p <;> simp [List.findSome?, hk]

theorem parsePluginOptions_spec (param : Str) (h : param ≠ []) :
    parsePluginOptions param =
      (if (lastVal "template_file".toList (splitComma param)).getD [] = [] then
        Except.error "必须指定 template_file 参数".toList
      else
        Except.ok
          { TemplateFile := (lastVal "template_file".toList (splitComma param)).getD []
            OutputDir :=
              (lastVal "output_dir".toList (splitComma param)).getD
                "local_service_center".toList
            PackageName :=
              (lastVal "package_name".toList (splitComma param)).getD
                "local_service_center".toList }) := by
  have h1 := foldl_applyPair_proj "template_file".toList PluginConfig.TemplateFile
    applyPair_TemplateFile (splitComma param) defaultConfig
  have h2 := foldl_applyPair_proj "output_dir".toList PluginConfig.OutputDir
    applyPair_OutputDir (splitComma param) defaultConfig
  have h3 := foldl_applyPair_proj "package_name".toList PluginConfig.PackageName
    applyPair_PackageName (splitComma param) defaultConfig
  simp only [parsePluginOptions, if_neg h]
  rcases hfold : (splitComma param).foldl applyPair defaultConfig with ⟨tf, od, pn⟩
  rw [hfold] at h1 h2 h3
  simp only [defaultConfig] at h1 h2 h3
  rw [h1, h2, h3]

theorem lastVal_eq_some {key : Str} {ps : List Str} {v : Str}
    (h : lastVal key ps = some v) :
    ∃ pair, pair ∈ ps ∧ keyHit key pair = some v := by
  obtain ⟨pair, hmem, hk⟩ := List.exists_of_findSome?_eq_some h
  exact ⟨pair, List.mem_reverse.mp hmem, hk⟩

/-- Claim C1: the empty parameter string fails; a parameter whose last
`template_file` entry trims to a non-empty value parses to a configuration
holding exactly that value, with `output_dir` / `package_name` taken from
their last entries when present and `"local_service_center"` otherwise;
and a parameter none of whose entries yields a non-empty `template_file`
value fails. -/
theorem claim1_parse_options :
    (parsePluginOptions [] =
      Except.error "必须指定插件参数，至少需要 template_file".toList) ∧
    (∀ param v, param ≠ [] →
      lastVal "template_file".toList (splitComma param) = some v → v ≠ [] →
      parsePluginOptions param = Except.ok
        { TemplateFile := v
          OutputDir :=
            (lastVal "output_dir".toList (splitComma param)).getD
              "local_service_center".toList
          PackageName :=
            (lastVal "package_name".toList (splitComma param)).getD
              "local_service_center".toList }) ∧
    (∀ param,
      (∀ pair ∈ splitComma param, ∀ v,
        keyHit "template_file".toList pair = some v → v = []) →
      ∃ e, parsePluginOptions param = Except.error e) := by
  refine ⟨rfl, ?_, ?_⟩
  · intro param v hne hlast hv
    rw [parsePluginOptions_spec param hne, hlast]
    simp [hv]
  · intro param hall
    by_cases hne : param = []
    · exact ⟨_, by rw [hne]; rfl⟩
    · have hempty : (lastVal "template_file".toList (splitComma param)).getD [] = [] := by
        cases hlast : lastVal "template_file".toList (splitComma param) with
        | none => rfl
        | some v =>
          obtain ⟨pair, hmem, hk⟩ := lastVal_eq_some hlast
          simpa using hall pair hmem v hk
      have heq : parsePluginOptions param =
          Except.error "必须指定 template_file 参数".toList := by
        rw [parsePluginOptions_spec param hne, if_pos hempty]
      exact ⟨_, heq⟩

/-- Witness for C1 at concrete inputs: `"template_file=t"` parses to the
expected configuration and `"x"` (an entry with no '=') fails. -/
theorem claim1_witness :
    (parsePluginOptions "template_file=t".toList = Except.ok
      { TemplateFile := "t".toList
        OutputDir := "local_service_center".toList
        PackageName := "local_service_center".toList }) ∧
    (∃ e, parsePluginOptions "x".toList = Except.error e) := by
  constructor
  · exact (claim1_parse_options.2.1 "template_file=t".toList "t".toList
      (by decide) (by decide) (by decide)).trans (by decide)
  · exact claim1_parse_options.2.2 "x".toList (by decide)

/-- Claim C9: when a recognized key occurs in several entries, the value
of the last such entry is the one held by the parsed configuration, and an
entry with an empty value (such as `output_dir=`) overwrites the default
with the empty string. -/
theorem claim9_last_entry_wins :
    (∀ param config, parsePluginOptions param = Except.ok config →
      (∀ v, lastVal "template_file".toList (splitComma param) = some v →
        config.TemplateFile = v) ∧
      (∀ v, lastVal "output_dir".toList (splitComma param) = some v →
        config.OutputDir = v) ∧
      (∀ v, lastVal "package_name".toList (splitComma param) = some v →
        config.PackageName = v)) ∧
    (parsePluginOptions "template_file=t,output_dir=a,output_dir=".toList =
      Except.ok
        { TemplateFile := "t".toList
          OutputDir := []
          PackageName := "local_service_center".toList }) := by
  constructor
  · intro param config hok
    by_cases hne : param = []
    · rw [hne] at hok; simp [parsePluginOptions] at hok
    · rw [parsePluginOptions_spec param hne] at hok
      by_cases hempty :
          (lastVal "template_file".toList (splitComma param)).getD [] = []
      · rw [if_pos hempty] at hok; exact Except.noConfusion hok
      · rw [if_neg hempty] at hok
        obtain rfl := Except.ok.inj hok
        refine ⟨?_, ?_, ?_⟩ <;> intro v hv <;> rw [hv] <;> rfl
  · decide

/-- Witness for C9: with `template_file` given twice, the parsed
configuration holds the second value. -/
theorem claim9_witness :
    (parsePluginOptions "template_file=a,template_file=b".toList =
      Except.ok
        { TemplateFile := "b".toList
          OutputDir := "local_service_center".toList
          PackageName := "local_service_center".toList }) ∧
    ({ TemplateFile := "b".toList
       OutputDir := "local_service_center".toList
       PackageName := "local_service_center".toList } : PluginConfig).TemplateFile =
      "b".toList := by
  refine ⟨by decide, ?_⟩
  exact (claim9_last_entry_wins.1 "template_file=a,template_file=b".toList _
    (by decide)).1 "b".toList (by decide)

/-! Helper lemmas: no comma survives into a parsed value. -/

theorem mem_splitComma_no_comma (s : Str) :
    ∀ p ∈ splitComma s, ',' ∉ p := by
  induction s with
  | nil =>
    intro p hp
    simp only [splitComma, List.mem_singleton] at hp
    simp [hp]
  | cons c rest ih =>
    intro p hp
    by_cases hc : c = ','
    · simp only [splitComma, if_pos hc] at hp
      rcases List.mem_cons.mp hp with h | h
      · simp [h]
      · exact ih p h
    · simp only [splitComma, if_neg hc] at hp
      rcases hsplit : splitComma rest with _ | ⟨q, qs⟩
      · rw [hsplit] at hp
        simp only [List.mem_singleton] at hp
        intro hmem
        rw [hp] at hmem
        rcases List.mem_singleton.mp hmem with h
        exact hc h.symm
      · rw [hsplit] at hp
        rcases List.mem_cons.mp hp with h | h
        · intro hmem
          rw [h] at hmem
          rcases List.mem_cons.mp hmem with h2 | h2
          · exact hc h2.symm
          · exact ih q (by rw [hsplit]; exact List.mem_cons_self q qs) h2
        · exact ih p (by rw [hsplit]; exact List.mem_cons_of_mem q h)

theorem splitFirstEq_val_mem {pair : Str} {kv : Str × Str}
    (h : splitFirstEq pair = some kv) : ∀ c ∈ kv.2, c ∈ pair := by
  induction pair generalizing kv with
  | nil => exact absurd h (by simp [splitFirstEq])
  | cons a rest ih =>
    intro c hc
    by_cases ha : a = '='
    · simp only [splitFirstEq, if_pos ha] at h
      obtain rfl := (Option.some.inj h).symm
      exact List.mem_cons_of_mem a hc
    · simp only [splitFirstEq, if_neg ha] at h
      rcases hs : splitFirstEq rest with _ | p
      · rw [hs] at h; exact absurd h (by simp)
      · rw [hs] at h
        simp only [Option.map_some'] at h
        obtain rfl := (Option.some.inj h).symm
        exact List.mem_cons_of_mem a (ih hs c hc)

theorem trimSpaceGo_mem {s : Str} : ∀ c ∈ trimSpaceGo s, c ∈ s := by
  intro c hc
  unfold trimSpaceGo at hc
  rw [List.mem_reverse] at hc
  have h1 := (List.dropWhile_sublist isSpaceGo).subset hc
  rw [List.mem_reverse] at h1
  exact (List.dropWhile_sublist isSpaceGo).subset h1

theorem keyHit_val {key pair v : Str} (h : keyHit key pair = some v) :
    ∀ c ∈ v, c ∈ pair := by
  intro c hc
  unfold keyHit entryOf at h
  rcases hs : splitFirstEq pair with _ | kv
  · rw [hs] at h; exact absurd h (by simp)
  · rw [hs] at h
    simp only [Option.map_some'] at h
    by_cases hkey : trimSpaceGo kv.1 = key
    · rw [if_pos hkey] at h
      obtain rfl := Option.some.inj h
      exact splitFirstEq_val_mem hs c (trimSpaceGo_mem c hc)
    · rw [if_neg hkey] at h
      exact absurd h (by simp)

theorem lastVal_no_comma {param key v : Str}
    (h : lastVal key (splitComma param) = some v) : ',' ∉ v := by
  obtain ⟨pair, hmem, hk⟩ := lastVal_eq_some h
  intro hcv
  exact mem_splitComma_no_comma param pair hmem (keyHit_val hk ',' hcv)

/-- Counterexample to C8 as stated: the parameter string
`"template_file=a=b"` parses successfully and the resulting
`TemplateFile` field contains the character '='; an entry's value keeps
every '=' after the first one, so values containing '=' can be
represented. -/
theorem claim8_counterexample :
    parsePluginOptions "template_file=a=b".toList =
      Except.ok
        { TemplateFile := "a=b".toList
          OutputDir := "local_service_center".toList
          PackageName := "local_service_center".toList } ∧
    '=' ∈ "a=b".toList := by
  constructor
  · decide
  · decide

/-- Claim C8 amended: no Configuration field produced by parsing contains
the character ','; (the original claim also asserted this for '=', which
fails, since each entry is split at the first '=' only and the remainder
of the entry, later '=' characters included, becomes the value). -/
theorem claim8_amended (param : Str) (config : PluginConfig)
    (hok : parsePluginOptions param = Except.ok config) :
    ',' ∉ config.TemplateFile ∧ ',' ∉ config.OutputDir ∧
      ',' ∉ config.PackageName := by
  by_cases hne : param = []
  · rw [hne] at hok; simp [parsePluginOptions] at hok
  · rw [parsePluginOptions_spec param hne] at hok
    by_cases hempty :
        (lastVal "template_file".toList (splitComma param)).getD [] = []
    · rw [if_pos hempty] at hok; exact Except.noConfusion hok
    · rw [if_neg hempty] at hok
      obtain rfl := Except.ok.inj hok
      refine ⟨?_, ?_, ?_⟩
      · show ',' ∉ (lastVal "template_file".toList (splitComma param)).getD []
        cases hlast : lastVal "template_file".toList (splitComma param) with
        | none => simp
        | some v => simpa using lastVal_no_comma hlast
      · show ',' ∉ (lastVal "output_dir".toList
          (splitComma param)).getD "local_service_center".toList
        cases hlast : lastVal "output_dir".toList (splitComma param) with
        | none => decide
        | some v => simpa using lastVal_no_comma hlast
      · show ',' ∉ (lastVal "package_name".toList
          (splitComma param)).getD "local_service_center".toList
        cases hlast : lastVal "package_name".toList (splitComma param) with
        | none => decide
        | some v => simpa using lastVal_no_comma hlast

/-- Witness for the amended C8 at a concrete input. -/
theorem claim8_witness :
    parsePluginOptions "template_file=t".toList =
      Except.ok
        { TemplateFile := "t".toList
          OutputDir := "local_service_center".toList
          PackageName := "local_service_center".toList } ∧
    (',' ∉ ("t".toList : Str) ∧
      ',' ∉ ("local_service_center".toList : Str) ∧
      ',' ∉ ("local_service_center".toList : Str)) := by
  constructor
  · decide
  · exact claim8_amended "template_file=t".toList
      { TemplateFile := "t".toList
        OutputDir := "local_service_center".toList
        PackageName := "local_service_center".toList } (by decide)

/-! Claims about naming derivation. -/

/-- Claim C2: `serviceNameOf` removes one trailing literal `"Service"`
when present (even when the remaining prefix itself ends in `"Service"`),
returns names without the suffix unchanged, and maps the name
`"Service"` itself to the empty string. -/
theorem claim2_service_name :
    (∀ pre : Str, serviceNameOf (pre ++ "Service".toList) = pre) ∧
    (∀ name : Str, "Service".toList.isSuffixOf name = false →
      serviceNameOf name = name) ∧
    serviceNameOf "Service".toList = [] ∧
    serviceNameOf "FooServiceService".toList = "FooService".toList := by
  refine ⟨?_, ?_, by decide, by decide⟩
  · intro pre
    have hsuf : "Service".toList.isSuffixOf (pre ++ "Service".toList) = true := by
      rw [List.isSuffixOf_iff_suffix]
      exact List.suffix_append pre "Service".toList
    unfold serviceNameOf trimSuffixGo
    rw [hsuf]
    simp [List.length_append, List.take_left]
  · intro name hns
    unfold serviceNameOf trimSuffixGo
    rw [hns]
    simp

/-- Witness for C2: a name without the suffix is kept unchanged. -/
theorem claim2_witness :
    ("Service".toList.isSuffixOf "Widget".toList = false) ∧
    serviceNameOf "Widget".toList = "Widget".toList :=
  ⟨by decide, claim2_service_name.2.1 "Widget".toList (by decide)⟩

theorem protoPackageNameOf_no_strip {pkg : Str}
    (h1 : "proto_".toList.isPrefixOf pkg = false)
    (h2 : "proto.".toList.isPrefixOf pkg = false) :
    protoPackageNameOf pkg = pkg := by
  have e1 : trimPrefixGo pkg "proto_".toList = pkg := by
    unfold trimPrefixGo
    rw [h1]
    rfl
  have e2 : trimPrefixGo pkg "proto.".toList = pkg := by
    unfold trimPrefixGo
    rw [h2]
    rfl
  simp only [protoPackageNameOf, e1, e2]
  simp

/-- Claim C3: the Variant B proto-package derivation strips a leading
`"proto_"` when present, otherwise a leading `"proto."` when present,
otherwise returns the identifier unchanged; at most one prefix is ever
stripped, and on a neither-prefix result the derivation is the
identity. -/
theorem claim3_proto_package_name :
    (∀ rest : Str, protoPackageNameOf ("proto_".toList ++ rest) = rest) ∧
    (∀ rest : Str, protoPackageNameOf ("proto.".toList ++ rest) = rest) ∧
    (∀ pkg : Str, "proto_".toList.isPrefixOf pkg = false →
      "proto.".toList.isPrefixOf pkg = false → protoPackageNameOf pkg = pkg) ∧
    (∀ pkg : Str,
      "proto_".toList.isPrefixOf (protoPackageNameOf pkg) = false →
      "proto.".toList.isPrefixOf (protoPackageNameOf pkg) = false →
      protoPackageNameOf (protoPackageNameOf pkg) = protoPackageNameOf pkg) := by
  refine ⟨?_, ?_, fun pkg h1 h2 => protoPackageNameOf_no_strip h1 h2,
    fun pkg h1 h2 => protoPackageNameOf_no_strip h1 h2⟩
  · intro rest
    have hpre : "proto_".toList.isPrefixOf ("proto_".toList ++ rest) = true := by
      rw [List.isPrefixOf_iff_prefix]
      exact List.prefix_append _ _
    have e1 : trimPrefixGo ("proto_".toList ++ rest) "proto_".toList = rest := by
      unfold trimPrefixGo
      rw [hpre]
      exact List.drop_left _ _
    have hne : rest ≠ "proto_".toList ++ rest := by
      intro h
      have hlen := congrArg List.length h
      have h6 : ("proto_".toList : Str).length = 6 := by decide
      rw [List.length_append, h6] at hlen
      omega
    simp only [protoPackageNameOf, e1]
    rw [if_neg hne]
  · intro rest
    have hpre1 : "proto_".toList.isPrefixOf ("proto.".toList ++ rest) = false := by
      rw [Bool.eq_false_iff]
      intro hcontra
      rw [List.isPrefixOf_iff_prefix] at hcontra
      obtain ⟨t, ht⟩ := hcontra
      exact absurd (List.append_inj_left ht (by decide)) (by decide)
    have hpre2 : "proto.".toList.isPrefixOf ("proto.".toList ++ rest) = true := by
      rw [List.isPrefixOf_iff_prefix]
      exact List.prefix_append _ _
    have e1 : trimPrefixGo ("proto.".toList ++ rest) "proto_".toList =
        "proto.".toList ++ rest := by
      unfold trimPrefixGo
      rw [hpre1]
      rfl
    have e2 : trimPrefixGo ("proto.".toList ++ rest) "proto.".toList = rest := by
      unfold trimPrefixGo
      rw [hpre2]
      exact List.drop_left _ _
    simp only [protoPackageNameOf, e1, e2]
    simp

/-- Witness for C3: a package name with neither prefix is returned
unchanged, via the third conjunct at a concrete input. -/
theorem claim3_witness :
    ("proto_".toList.isPrefixOf "abc".toList = false) ∧
    ("proto.".toList.isPrefixOf "abc".toList = false) ∧
    protoPackageNameOf "abc".toList = "abc".toList :=
  ⟨by decide, by decide,
    claim3_proto_package_name.2.2.1 "abc".toList (by decide) (by decide)⟩

/-! Claims about case conversion and the emitted path. -/

theorem toNat_ofNat_small {n : Nat} (h : n < 55296) :
    (Char.ofNat n).toNat = n := by
  have hv : n.isValidChar := Or.inl h
  simp only [Char.ofNat, dif_pos hv, Char.ofNatAux, Char.toNat]
  simp [UInt32.toNat, BitVec.toNat_ofNatLt]

/-- Claim C10: `toCamelCase` lowers an ASCII upper-case first character
(65..90, replaced by the character 32 code points higher) and keeps
everything else unchanged; it is idempotent, fixes the empty string, and
leaves a non-ASCII upper-case first character (here U+00C0) alone. -/
theorem claim10_to_camel_case :
    (toCamelCase ([] : Str) = []) ∧
    (∀ c rest, 65 ≤ c.toNat → c.toNat ≤ 90 →
      toCamelCase (c :: rest) = Char.ofNat (c.toNat + 32) :: rest) ∧
    (∀ c rest, ¬(65 ≤ c.toNat ∧ c.toNat ≤ 90) →
      toCamelCase (c :: rest) = c :: rest) ∧
    (∀ s : Str, toCamelCase (toCamelCase s) = toCamelCase s) ∧
    toCamelCase [Char.ofNat 0xC0] = [Char.ofNat 0xC0] := by
  refine ⟨rfl, ?_, ?_, ?_, by decide⟩
  · intro c rest h1 h2
    simp [toCamelCase, h1, h2]
  · intro c rest h
    simp only [toCamelCase, if_neg h]
  · intro s
    match s with
    | [] => rfl
    | c :: rest =>
      by_cases h : 65 ≤ c.toNat ∧ c.toNat ≤ 90
      · have hlt : c.toNat + 32 < 55296 := by omega
        have htn : (Char.ofNat (c.toNat + 32)).toNat = c.toNat + 32 :=
          toNat_ofNat_small hlt
        rw [show toCamelCase (c :: rest) = Char.ofNat (c.toNat + 32) :: rest from by
          simp [toCamelCase, h]]
        simp only [toCamelCase, htn]
        rw [if_neg (by omega)]
      · have he : toCamelCase (c :: rest) = c :: rest := by
          simp only [toCamelCase, if_neg h]
        rw [he, he]

/-- Witness for C10: the concrete name `"Abc"` gets its first character
lowered. -/
theorem claim10_witness :
    (65 ≤ ('A' : Char).toNat) ∧ (('A' : Char).toNat ≤ 90) ∧
    toCamelCase ('A' :: "bc".toList) = Char.ofNat ('A'.toNat + 32) :: "bc".toList :=
  ⟨by decide, by decide,
    claim10_to_camel_case.2.1 'A' "bc".toList (by decide) (by decide)⟩

theorem toCamelCase_eq_specLowerFirst (s : Str) :
    toCamelCase s = specLowerFirst s := by
  match s with
  | [] => rfl
  | c :: rest =>
    have hlow : Char.toLower c =
        if 65 ≤ c.toNat ∧ c.toNat ≤ 90 then Char.ofNat (c.toNat + 32) else c := rfl
    simp only [toCamelCase, specLowerFirst, hlow]
    by_cases h : 65 ≤ c.toNat ∧ c.toNat ≤ 90
    · rw [if_pos h, if_pos h]
    · rw [if_neg h, if_neg h]

theorem toLowerGo_eq_specLowerAll (s : Str) :
    toLowerGo s = specLowerAll s := by
  unfold toLowerGo specLowerAll
  exact congrArg (fun f => List.map f s) (funext fun c => rfl)

/-- Claim C4: both implementations emit under
`filepathJoin outputDir (caseConverted serviceName ++ ".go")`; the
`part_000` naming follows the lower-camel policy (first character
lower-cased, rest unchanged) and the `main.go` naming follows the
whole-name lower-casing policy.  Scoped to ASCII service names, where the
ASCII model of `strings.ToLower` is exact. -/
theorem claim4_output_path (config : PluginConfig) (serviceName : Str)
    (hascii : ∀ c ∈ serviceName, c.toNat < 128) :
    outputPathPart000 config serviceName =
      specEmitPath specLowerFirst config serviceName ∧
    outputPathMain config serviceName =
      specEmitPath specLowerAll config serviceName := by
  constructor
  · unfold outputPathPart000 specEmitPath
    rw [toCamelCase_eq_specLowerFirst]
  · unfold outputPathMain specEmitPath
    rw [toLowerGo_eq_specLowerAll]

/-- Witness for C4: both policies at the concrete derived name `"Order"`
and output directory `"out"`, evaluating to `"out/order.go"`. -/
theorem claim4_witness :
    outputPathPart000
      { TemplateFile := "t".toList
        OutputDir := "out".toList
        PackageName := "p".toList } "Order".toList =
      specEmitPath specLowerFirst
        { TemplateFile := "t".toList
          OutputDir := "out".toList
          PackageName := "p".toList } "Order".toList ∧
    outputPathPart000
      { TemplateFile := "t".toList
        OutputDir := "out".toList
        PackageName := "p".toList } "Order".toList = "out/order.go".toList :=
  ⟨(claim4_output_path
      { TemplateFile := "t".toList
        OutputDir := "out".toList
        PackageName := "p".toList } "Order".toList (by decide)).1,
    by decide⟩

/-! Claims about the pipeline orchestrator. -/

theorem runPairs_cons_error {E G : Type}
    {step : FileMeta → ServiceMeta → Except E G}
    {p : FileMeta × ServiceMeta} {e : E}
    (l : List (FileMeta × ServiceMeta)) (hs : step p.1 p.2 = Except.error e) :
    runPairs step (p :: l) = ([p], Except.error e) := by
  unfold runPairs
  rw [hs]

theorem runPairs_cons_ok_error {E G : Type}
    {step : FileMeta → ServiceMeta → Except E G}
    {p : FileMeta × ServiceMeta} {l : List (FileMeta × ServiceMeta)}
    {g : G} {tr : List (FileMeta × ServiceMeta)} {e : E}
    (hs : step p.1 p.2 = Except.ok g)
    (hl : runPairs step l = (tr, Except.error e)) :
    runPairs step (p :: l) = (p :: tr, Except.error e) := by
  unfold runPairs
  rw [hs, hl]

theorem runPairs_cons_ok_ok {E G : Type}
    {step : FileMeta → ServiceMeta → Except E G}
    {p : FileMeta × ServiceMeta} {l : List (FileMeta × ServiceMeta)}
    {g : G} {tr : List (FileMeta × ServiceMeta)} {gs : List G}
    (hs : step p.1 p.2 = Except.ok g)
    (hl : runPairs step l = (tr, Except.ok gs)) :
    runPairs step (p :: l) = (p :: tr, Except.ok (g :: gs)) := by
  unfold runPairs
  rw [hs, hl]

theorem runPairs_append_error {E G : Type}
    (step : FileMeta → ServiceMeta → Except E G)
    (l1 l2 : List (FileMeta × ServiceMeta)) (e : E) :
    (runPairs step l1).2 = Except.error e →
      runPairs step (l1 ++ l2) = ((runPairs step l1).1, Except.error e) := by
  induction l1 with
  | nil => intro h; simp [runPairs] at h
  | cons p l1 ih =>
    intro h
    cases hs : step p.1 p.2 with
    | error e1 =>
      rw [runPairs_cons_error l1 hs] at h
      simp only at h
      obtain rfl := Except.error.inj h
      rw [List.cons_append, runPairs_cons_error (l1 ++ l2) hs,
        runPairs_cons_error l1 hs]
    | ok g =>
      rcases h1 : runPairs step l1 with ⟨tr1, r1⟩
      cases r1 with
      | error e1 =>
        rw [runPairs_cons_ok_error hs h1] at h
        simp only at h
        obtain rfl := Except.error.inj h
        have hl12 : runPairs step (l1 ++ l2) = (tr1, Except.error e1) := by
          rw [ih (by rw [h1]), h1]
        rw [List.cons_append, runPairs_cons_ok_error hs hl12,
          runPairs_cons_ok_error hs h1]
      | ok gs =>
        rw [runPairs_cons_ok_ok hs h1] at h
        simp only at h
        exact Except.noConfusion h

theorem runPairs_append_ok {E G : Type}
    (step : FileMeta → ServiceMeta → Except E G)
    (l1 l2 : List (FileMeta × ServiceMeta)) :
    ∀ gs, (runPairs step l1).2 = Except.ok gs →
      runPairs step (l1 ++ l2) =
        ((runPairs step l1).1 ++ (runPairs step l2).1,
          ((runPairs step l2).2).map (fun gs2 => gs ++ gs2)) := by
  induction l1 with
  | nil =>
    intro gs h
    have h0 : runPairs step ([] : List (FileMeta × ServiceMeta)) =
        ([], Except.ok ([] : List G)) := rfl
    rw [h0] at h
    simp only at h
    obtain rfl := (Except.ok.inj h).symm
    rcases h2 : runPairs step l2 with ⟨tr2, r2⟩
    cases r2 with
    | error e2 => simp [h0, h2, Except.map]
    | ok gs2 => simp [h0, h2, Except.map]
  | cons p l1 ih =>
    intro gs h
    cases hs : step p.1 p.2 with
    | error e1 =>
      rw [runPairs_cons_error l1 hs] at h
      simp only at h
      exact Except.noConfusion h
    | ok g =>
      rcases h1 : runPairs step l1 with ⟨tr1, r1⟩
      cases r1 with
      | error e1 =>
        rw [runPairs_cons_ok_error hs h1] at h
        simp only at h
        exact Except.noConfusion h
      | ok gs1 =>
        rw [runPairs_cons_ok_ok hs h1] at h
        simp only at h
        obtain rfl := (Except.ok.inj h).symm
        have h12 := ih gs1 (by rw [h1])
        rw [h1] at h12
        rcases h2 : runPairs step l2 with ⟨tr2, r2⟩
        rw [h2] at h12
        cases r2 with
        | error e2 =>
          have h12e : runPairs step (l1 ++ l2) =
              (tr1 ++ tr2, Except.error e2) := h12
          rw [List.cons_append, runPairs_cons_ok_error hs h12e,
            runPairs_cons_ok_ok hs h1]
          rfl
        | ok gs2 =>
          have h12o : runPairs step (l1 ++ l2) =
              (tr1 ++ tr2, Except.ok (gs1 ++ gs2)) := h12
          rw [List.cons_append, runPairs_cons_ok_ok hs h12o,
            runPairs_cons_ok_ok hs h1]
          rfl

theorem runServices_eq_runPairs {E G : Type}
    (step : FileMeta → ServiceMeta → Except E G) (f : FileMeta) :
    ∀ l : List ServiceMeta,
      runServices step f l = runPairs step (l.map fun s => (f, s)) := by
  intro l
  induction l with
  | nil => rfl
  | cons s l ih =>
    cases hs : step f s with
    | error e =>
      have hL : runServices step f (s :: l) = ([(f, s)], Except.error e) := by
        unfold runServices
        rw [hs]
      have hR : runPairs step ((s :: l).map fun s => (f, s)) =
          ([(f, s)], Except.error e) := by
        rw [List.map_cons]
        exact runPairs_cons_error _
          (hs : step (f, s).1 (f, s).2 = Except.error e)
      rw [hL, hR]
    | ok g =>
      rcases h1 : runPairs step (l.map fun s => (f, s)) with ⟨tr, r⟩
      have h1s : runServices step f l = (tr, r) := by rw [ih, h1]
      cases r with
      | error e =>
        have hL : runServices step f (s :: l) =
            ((f, s) :: tr, Except.error e) := by
          unfold runServices
          rw [hs, h1s]
        have hR : runPairs step ((s :: l).map fun s => (f, s)) =
            ((f, s) :: tr, Except.error e) := by
          rw [List.map_cons]
          exact runPairs_cons_ok_error
            (hs : step (f, s).1 (f, s).2 = Except.ok g) h1
        rw [hL, hR]
      | ok gs =>
        have hL : runServices step f (s :: l) =
            ((f, s) :: tr, Except.ok (g :: gs)) := by
          unfold runServices
          rw [hs, h1s]
        have hR : runPairs step ((s :: l).map fun s => (f, s)) =
            ((f, s) :: tr, Except.ok (g :: gs)) := by
          rw [List.map_cons]
          exact runPairs_cons_ok_ok
            (hs : step (f, s).1 (f, s).2 = Except.ok g) h1
        rw [hL, hR]

theorem runPlugin_cons {E G : Type}
    (step : FileMeta → ServiceMeta → Except E G) (f : FileMeta)
    (rest : List FileMeta) :
    runPlugin step (f :: rest) =
      if f.Generate then
        match runServices step f f.Services with
        | (tr, Except.error e) => (tr, Except.error e)
        | (tr, Except.ok gs) =>
          match runPlugin step rest with
          | (tr2, Except.error e) => (tr ++ tr2, Except.error e)
          | (tr2, Except.ok gs2) => (tr ++ tr2, Except.ok (gs ++ gs2))
      else runPlugin step rest := rfl

theorem runPlugin_eq_runPairs {E G : Type}
    (step : FileMeta → ServiceMeta → Except E G) :
    ∀ files : List FileMeta,
      runPlugin step files = runPairs step (eligiblePairs files) := by
  intro files
  induction files with
  | nil => rfl
  | cons f rest ih =>
    by_cases hg : f.Generate
    · have hel : eligiblePairs (f :: rest) =
          (f.Services.map fun s => (f, s)) ++ eligiblePairs rest := by
        simp [eligiblePairs, hg]
      rcases h1 : runServices step f f.Services with ⟨tr, r⟩
      have h1p : runPairs step (f.Services.map fun s => (f, s)) = (tr, r) := by
        rw [← runServices_eq_runPairs step f, h1]
      cases r with
      | error e =>
        have hL : runPlugin step (f :: rest) = (tr, Except.error e) := by
          rw [runPlugin_cons, if_pos hg, h1]
        rw [hL, hel, runPairs_append_error step _ _ e (by rw [h1p]), h1p]
      | ok gs =>
        rcases h2 : runPlugin step rest with ⟨tr2, r2⟩
        have h2p : runPairs step (eligiblePairs rest) = (tr2, r2) := by
          rw [← ih, h2]
        have hL : runPlugin step (f :: rest) =
            (tr ++ tr2, r2.map fun gs2 => gs ++ gs2) := by
          rw [runPlugin_cons, if_pos hg, h1, h2]
          cases r2 with
          | error e2 => rfl
          | ok gs2 => rfl
        rw [hL, hel, runPairs_append_ok step _ _ gs (by rw [h1p]), h1p, h2p]
    · have hel : eligiblePairs (f :: rest) = eligiblePairs rest := by
        simp [eligiblePairs, hg]
      have hL : runPlugin step (f :: rest) = runPlugin step rest := by
        rw [runPlugin_cons, if_neg hg]
      rw [hL, hel, ih]

theorem runPairs_ok_iff {E G : Type}
    (step : FileMeta → ServiceMeta → Except E G) :
    ∀ (l : List (FileMeta × ServiceMeta)) (gs : List G),
      (runPairs step l).2 = Except.ok gs →
      (runPairs step l).1 = l ∧
        List.Forall₂ (fun p g => step p.1 p.2 = Except.ok g) l gs := by
  intro l
  induction l with
  | nil =>
    intro gs h
    have h0 : runPairs step ([] : List (FileMeta × ServiceMeta)) =
        ([], Except.ok ([] : List G)) := rfl
    rw [h0] at h
    simp only at h
    obtain rfl := (Except.ok.inj h).symm
    exact ⟨by rw [h0], List.Forall₂.nil⟩
  | cons p l ih =>
    intro gs h
    cases hs : step p.1 p.2 with
    | error e =>
      rw [runPairs_cons_error l hs] at h
      simp only at h
      exact Except.noConfusion h
    | ok g =>
      rcases h1 : runPairs step l with ⟨tr, r⟩
      cases r with
      | error e =>
        rw [runPairs_cons_ok_error hs h1] at h
        simp only at h
        exact Except.noConfusion h
      | ok gs1 =>
        rw [runPairs_cons_ok_ok hs h1] at h
        simp only at h
        obtain rfl := (Except.ok.inj h).symm
        obtain ⟨htr, hf⟩ := ih gs1 (by rw [h1])
        rw [h1] at htr
        simp only at htr
        rw [runPairs_cons_ok_ok hs h1]
        exact ⟨by show p :: tr = p :: l; rw [htr],
          List.Forall₂.cons hs hf⟩

theorem runPairs_error_split {E G : Type}
    (step : FileMeta → ServiceMeta → Except E G) :
    ∀ (l : List (FileMeta × ServiceMeta)) (e : E),
      (runPairs step l).2 = Except.error e →
      ∃ pre q post, l = pre ++ q :: post ∧
        (∀ r ∈ pre, ∃ g, step r.1 r.2 = Except.ok g) ∧
        step q.1 q.2 = Except.error e ∧
        (runPairs step l).1 = pre ++ [q] := by
  intro l
  induction l with
  | nil => intro e h; simp [runPairs] at h
  | cons p l ih =>
    intro e h
    cases hs : step p.1 p.2 with
    | error e1 =>
      rw [runPairs_cons_error l hs] at h
      simp only at h
      obtain rfl := Except.error.inj h
      refine ⟨[], p, l, by simp, by simp, hs, ?_⟩
      rw [runPairs_cons_error l hs]
      rfl
    | ok g =>
      rcases h1 : runPairs step l with ⟨tr, r⟩
      cases r with
      | ok gs =>
        rw [runPairs_cons_ok_ok hs h1] at h
        simp only at h
        exact Except.noConfusion h
      | error e1 =>
        rw [runPairs_cons_ok_error hs h1] at h
        simp only at h
        obtain rfl := Except.error.inj h
        obtain ⟨pre, q, post, hsplit, hpre, hq, htr⟩ := ih e1 (by rw [h1])
        rw [h1] at htr
        simp only at htr
        refine ⟨p :: pre, q, post, by rw [hsplit]; rfl, ?_, hq, ?_⟩
        · intro r hr
          rcases List.mem_cons.mp hr with hr1 | hr1
          · exact ⟨g, by rw [hr1]; exact hs⟩
          · exact hpre r hr1
        · rw [runPairs_cons_ok_error hs h1]
          show p :: tr = (p :: pre) ++ [q]
          rw [htr]
          rfl

/-- Claim C5: when the run fails, the error is the one produced by the
first failing (file, service) pair, every earlier eligible pair succeeded,
and the processing trace stops at the failing pair (no later service or
file is processed); when the run succeeds, every eligible pair was
processed and contributed exactly one generated file, in order. -/
theorem claim5_fail_fast {E G : Type}
    (step : FileMeta → ServiceMeta → Except E G) (files : List FileMeta) :
    (∀ e, (runPlugin step files).2 = Except.error e →
      ∃ pre q post, eligiblePairs files = pre ++ q :: post ∧
        (∀ r ∈ pre, ∃ g, step r.1 r.2 = Except.ok g) ∧
        step q.1 q.2 = Except.error e ∧
        (runPlugin step files).1 = pre ++ [q]) ∧
    (∀ gs, (runPlugin step files).2 = Except.ok gs →
      (runPlugin step files).1 = eligiblePairs files ∧
        List.Forall₂ (fun p g => step p.1 p.2 = Except.ok g)
          (eligiblePairs files) gs) := by
  rw [runPlugin_eq_runPairs]
  exact ⟨fun e h => runPairs_error_split step (eligiblePairs files) e h,
    fun gs h => runPairs_ok_iff step (eligiblePairs files) gs h⟩

/-- Witness for C5: with a concrete run failing on the second of three
services, the trace stops at that service and the error surfaces. -/
theorem claim5_witness :
    (runPlugin wStep [wFileA]).2 = Except.error 7 ∧
    (∃ pre q post, eligiblePairs [wFileA] = pre ++ q :: post ∧
      (∀ r ∈ pre, ∃ g, wStep r.1 r.2 = Except.ok g) ∧
      wStep q.1 q.2 = Except.error 7 ∧
      (runPlugin wStep [wFileA]).1 = pre ++ [q]) :=
  ⟨rfl, (claim5_fail_fast wStep [wFileA]).1 7 rfl⟩

/-- Claim C6: a file whose `Generate` flag is false contributes nothing to
a run: removing it from the file list leaves the whole run (trace and
result) unchanged, and a run over only that file processes no service and
registers no generated file. -/
theorem claim6_skip_non_generate {E G : Type}
    (step : FileMeta → ServiceMeta → Except E G)
    (pre post : List FileMeta) (f : FileMeta) (h : f.Generate = false) :
    runPlugin step (pre ++ f :: post) = runPlugin step (pre ++ post) ∧
    runPlugin step [f] = ([], Except.ok []) := by
  have hneg : ¬f.Generate = true := by
    rw [h]
    exact Bool.false_ne_true
  constructor
  · induction pre with
    | nil =>
      show runPlugin step (f :: post) = runPlugin step post
      rw [runPlugin_cons, if_neg hneg]
    | cons q pre ihp =>
      show runPlugin step (q :: (pre ++ f :: post)) =
        runPlugin step (q :: (pre ++ post))
      rw [runPlugin_cons, runPlugin_cons, ihp]
  · rw [runPlugin_cons, if_neg hneg]
    rfl

/-- Witness for C6: the concrete non-eligible file is skipped. -/
theorem claim6_witness :
    wFileSkip.Generate = false ∧
    (runPlugin wStep ([wFileA] ++ wFileSkip :: []) =
        runPlugin wStep ([wFileA] ++ []) ∧
      runPlugin wStep [wFileSkip] = ([], Except.ok [])) :=
  ⟨rfl, claim6_skip_non_generate wStep [wFileA] [] wFileSkip rfl⟩

/-- Claim C7: `loadTemplate` answers the distinct not-found error (naming
the configured path) exactly when the stat check reports the path missing;
otherwise a read failure is wrapped in the distinct read error, and a
successful read returns the template content. -/
theorem claim7_load_template (fs : FileSystem) (config : PluginConfig) :
    (fs.statNotExist config.TemplateFile = true →
      loadTemplate fs config =
        Except.error (TemplateError.notFound config.TemplateFile)) ∧
    (∀ p, loadTemplate fs config = Except.error (TemplateError.notFound p) →
      p = config.TemplateFile ∧ fs.statNotExist config.TemplateFile = true) ∧
    (fs.statNotExist config.TemplateFile = false →
      ∀ m, fs.readFile config.TemplateFile = Except.error m →
        loadTemplate fs config = Except.error (TemplateError.readFailed m)) ∧
    (fs.statNotExist config.TemplateFile = false →
      ∀ content, fs.readFile config.TemplateFile = Except.ok content →
        loadTemplate fs config = Except.ok content) := by
  refine ⟨?_, ?_, ?_, ?_⟩
  · intro hst
    unfold loadTemplate
    rw [if_pos hst]
  · intro p h
    unfold loadTemplate at h
    by_cases hst : fs.statNotExist config.TemplateFile = true
    · rw [if_pos hst] at h
      exact ⟨(TemplateError.notFound.inj (Except.error.inj h)).symm, hst⟩
    · rw [if_neg hst] at h
      cases hr : fs.readFile config.TemplateFile with
      | error m =>
        rw [hr] at h
        exact absurd (Except.error.inj h) (by simp)
      | ok c =>
        rw [hr] at h
        exact Except.noConfusion h
  · intro hst m hm
    have hneg : ¬fs.statNotExist config.TemplateFile = true := by
      rw [hst]
      exact Bool.false_ne_true
    unfold loadTemplate
    rw [if_neg hneg, hm]
  · intro hst content hc
    have hneg : ¬fs.statNotExist config.TemplateFile = true := by
      rw [hst]
      exact Bool.false_ne_true
    unfold loadTemplate
    rw [if_neg hneg, hc]

/-- Witness for C7: on the all-missing oracle the loader answers the
not-found error; on the all-present oracle it returns the content. -/
theorem claim7_witness :
    (wFSmissing.statNotExist defaultConfig.TemplateFile = true ∧
      loadTemplate wFSmissing defaultConfig =
        Except.error (TemplateError.notFound defaultConfig.TemplateFile)) ∧
    (wFS.statNotExist defaultConfig.TemplateFile = false ∧
      loadTemplate wFS defaultConfig = Except.ok "tmpl".toList) :=
  ⟨⟨rfl, (claim7_load_template wFSmissing defaultConfig).1 rfl⟩,
    ⟨rfl, (claim7_load_template wFS defaultConfig).2.2.2 rfl
      "tmpl".toList rfl⟩⟩
